import Mathlib

/-!
Verification development for the MAX31850 / DallasTemperature driver.

The repository ships the class header `src/DallasTemperature.h` only; the
method bodies live in a translation unit that is not part of `src/`.  The
constants below are taken directly from the header.  Every function whose
body is missing is modelled from the specification (its doc comment starts
with "Modelled from the spec:") and is marked as such.

Temperatures are represented by exact rationals (`ℚ`): the C `float`
arithmetic used by the driver (÷2, ÷16, ×1.8, …) is exact on the values in
range here, so `ℚ` is a faithful shallow embedding of the arithmetic.
-/

set_option maxRecDepth 8192

namespace DallasTemperature

/-- Model ID of the legacy count-based DS18S20 family
(`#define DS18S20MODEL 0x10` in src/DallasTemperature.h). -/
def DS18S20MODEL : Nat := 0x10

/-- Model ID of the DS18B20 family (`#define DS18B20MODEL 0x28`). -/
def DS18B20MODEL : Nat := 0x28

/-- Model ID of the DS1822 family (`#define DS1822MODEL 0x22`). -/
def DS1822MODEL : Nat := 0x22

/-- Model ID of the MAX31850 family (`#define MAX31850MODEL 0x3B`). -/
def MAX31850MODEL : Nat := 0x3B

/-- Scratchpad location of the temperature LSB (`#define TEMP_LSB 0`). -/
def TEMP_LSB : Nat := 0

/-- Scratchpad location of the temperature MSB (`#define TEMP_MSB 1`). -/
def TEMP_MSB : Nat := 1

/-- Scratchpad location of the configuration byte (`#define CONFIGURATION 4`). -/
def CONFIGURATION : Nat := 4

/-- Scratchpad location of COUNT_REMAIN (`#define COUNT_REMAIN 6`). -/
def COUNT_REMAIN : Nat := 6

/-- Scratchpad location of COUNT_PER_C (`#define COUNT_PER_C 7`). -/
def COUNT_PER_C : Nat := 7

/-- Scratchpad location of the CRC byte (`#define SCRATCHPAD_CRC 8`). -/
def SCRATCHPAD_CRC : Nat := 8

/-- 9-bit resolution configuration byte (`#define TEMP_9_BIT 0x1F`). -/
def TEMP_9_BIT : Nat := 0x1F

/-- 10-bit resolution configuration byte (`#define TEMP_10_BIT 0x3F`). -/
def TEMP_10_BIT : Nat := 0x3F

/-- 11-bit resolution configuration byte (`#define TEMP_11_BIT 0x5F`). -/
def TEMP_11_BIT : Nat := 0x5F

/-- 12-bit resolution configuration byte (`#define TEMP_12_BIT 0x7F`). -/
def TEMP_12_BIT : Nat := 0x7F

/-- Device-disconnected sentinel (`#define DEVICE_DISCONNECTED -127`). -/
def DEVICE_DISCONNECTED : ℚ := -127

/-- Modelled from the spec: the CRC-8 primitive of the external 1-wire bus
transport (`OneWire::crc8`, not part of this repository).  One update step
over a single byte with the standard 1-wire polynomial `X^8 + X^5 + X^4 + 1`
(LSB-first, feedback constant 0x8C). -/
def crc8Byte (crc b : Nat) : Nat :=
  ((List.range 8).foldl
    (fun st _ =>
      let mix := (st.1 ^^^ st.2) &&& 1
      let c := st.1 >>> 1
      (if mix = 1 then c ^^^ 0x8C else c, st.2 >>> 1))
    (crc, b)).1

/-- Modelled from the spec: CRC-8 of a byte string with the standard 1-wire
polynomial, initial value 0. -/
def crc8 (bytes : List Nat) : Nat :=
  bytes.foldl crc8Byte 0

/-- Modelled from the spec: body of `validAddress` is not under `src/` (the
header declares it only).  Per the spec, it computes CRC-8 over the first
7 bytes of the address and compares the result with byte 7. -/
def validAddress (a : List Nat) : Bool :=
  crc8 (a.take 7) == a.getD 7 0

/-- Two's-complement reading of a 16-bit pattern (the C `int16_t` raw
temperature value). -/
def toInt16 (v : Nat) : Int :=
  if v % 65536 < 32768 then (v % 65536 : Int) else (v % 65536 : Int) - 65536

/-- Number of insignificant low raw bits for a configuration byte:
3 at 9-bit resolution, 2 at 10-bit, 1 at 11-bit, 0 at 12-bit. -/
def resolutionMaskBits (config : Nat) : Nat :=
  if config = TEMP_9_BIT then 3
  else if config = TEMP_10_BIT then 2
  else if config = TEMP_11_BIT then 1
  else 0

/-- Modelled from the spec: body of `calculateTemperature` is not under
`src/` (the header declares it only).  For the legacy count-based family
(DS18S20): raw = (MSB<<8 | LSB) with the low bit cleared, base = raw/2, and
the correction `base - 0.25 + (countPerC - countRemain)/countPerC` is applied
when countPerC is nonzero, else the uncorrected value is returned.  For all
other families: raw = signed 16-bit (MSB<<8 | LSB), the low bits given by
the configured resolution are masked off, and the result is scaled by 1/16. -/
def calculateTemperature (family : Nat) (sp : List Nat) : ℚ :=
  let lsb := sp.getD TEMP_LSB 0
  let msb := sp.getD TEMP_MSB 0
  if family = DS18S20MODEL then
    let raw := toInt16 ((msb <<< 8 ||| lsb) &&& 0xFFFE)
    let base : ℚ := (raw : ℚ) / 2
    let countPerC := sp.getD COUNT_PER_C 0
    let countRemain := sp.getD COUNT_REMAIN 0
    if countPerC ≠ 0 then
      base - 1/4 + (((countPerC : ℚ) - (countRemain : ℚ)) / (countPerC : ℚ))
    else base
  else
    let k := resolutionMaskBits (sp.getD CONFIGURATION 0)
    let raw := toInt16 ((msb <<< 8 ||| lsb) &&& (0xFFFF - (2 ^ k - 1)))
    (raw : ℚ) / 16

/-- Modelled from the spec: body of `readScratchPad` is not under `src/`.
The 9 bytes received from the device are validated against the scratchpad
CRC (byte 8); a checksum mismatch discards the read (DeviceError). -/
def readScratchPad (sp : List Nat) : Option (List Nat) :=
  if crc8 (sp.take 8) == sp.getD SCRATCHPAD_CRC 0 then some sp else none

/-- Modelled from the spec: body of `getTempC` is not under `src/`.  Reads
the scratchpad; on ChecksumMismatch returns DEVICE_DISCONNECTED, else
decodes via `calculateTemperature` dispatched on the address family byte. -/
def getTempC (addr sp : List Nat) : ℚ :=
  match readScratchPad sp with
  | some s => calculateTemperature (addr.getD 0 0) s
  | none => DEVICE_DISCONNECTED

/-- Modelled from the spec: `toFahrenheit(c) = c*1.8+32`, a pure total
function (1.8 is exact in `ℚ`). -/
def toFahrenheit (c : ℚ) : ℚ := c * 1.8 + 32

/-- Modelled from the spec: `toCelsius(f) = (f-32)/1.8`, a pure total
function. -/
def toCelsius (f : ℚ) : ℚ := (f - 32) / 1.8

/-- Modelled from the spec: body of `getTempF` is not under `src/`.  Per the
header documentation and the spec error-handling policy, it returns
DEVICE_DISCONNECTED when the scratchpad cannot be read, else the decoded
temperature converted to Fahrenheit. -/
def getTempF (addr sp : List Nat) : ℚ :=
  match readScratchPad sp with
  | some s => toFahrenheit (calculateTemperature (addr.getD 0 0) s)
  | none => DEVICE_DISCONNECTED

/-- The two ways a conversion wait can be performed. -/
inductive WaitMode where
  | activePoll : WaitMode
  | blockingDelay (ms : Nat) : WaitMode
deriving DecidableEq

/-- Modelled from the spec: blocking-delay duration derived from the
configured resolution, halving with each resolution step down from 12-bit's
~750 ms. -/
def millisToWaitForConversion (bitResolution : Nat) : Nat :=
  750 / 2 ^ (12 - bitResolution)

/-- Modelled from the spec: body of `blockTillConversionComplete` is not
under `src/`.  Active polling of the bus bit is used only when the
check-for-conversion policy is selected and parasite power is not in
effect (a parasitically powered device cannot release the bus to signal
completion); otherwise the controller blocks for the resolution-derived
delay. -/
def blockTillConversionComplete
    (parasite checkForConversion : Bool) (bitResolution : Nat) : WaitMode :=
  if checkForConversion && !parasite then WaitMode.activePoll
  else WaitMode.blockingDelay (millisToWaitForConversion bitResolution)

/-- Configuration byte corresponding to a resolution of 9..12 bits
(the four TEMP constants of the header). -/
def resolutionMask (bits : Nat) : Nat :=
  if bits = 9 then TEMP_9_BIT
  else if bits = 10 then TEMP_10_BIT
  else if bits = 11 then TEMP_11_BIT
  else TEMP_12_BIT

/-- Resolution encoded in bits 5-6 of a configuration byte. -/
def resolutionOfConfig (config : Nat) : Nat := 9 + ((config >>> 5) &&& 3)

/-- Strict order in which the 1-wire binary-tree search visits ROM codes:
bit 0 is examined first and the 0-branch is taken before the 1-branch, so
the visit order is lexicographic on the bit list with `false` before
`true`. -/
def lexLt : List Bool → List Bool → Bool
  | [], [] => false
  | [], _ :: _ => true
  | _ :: _, [] => false
  | x :: xs, y :: ys => (!x && y) || (x == y && lexLt xs ys)

/-- Devices on the (remaining) bus whose current search bit is `b`,
each stripped of that bit.  In the 1-wire search, this branch of the tree
is reported present exactly when this list is nonempty. -/
def branchTails (b : Bool) (S : List (List Bool)) : List (List Bool) :=
  (S.filter (fun d => d.headI == b)).map List.tail

/-- Modelled from the spec: the first-encounter rule of the bus search
(`alarmSearch` body is not under `src/`).  At each of the remaining `n` bit
positions the search takes the 0-branch when it is present (on a
discrepancy this is the default branch), else the 1-branch. -/
def leastSuffix : Nat → List (List Bool) → List Bool
  | 0, _ => []
  | n + 1, S =>
    if (branchTails false S).isEmpty then true :: leastSuffix n (branchTails true S)
    else false :: leastSuffix n (branchTails false S)

/-- Modelled from the spec: one step of the bus search cursor
(`alarmSearch` body is not under `src/`).  Revisiting the bits of the
previously returned address `a`, the search follows the recorded branch
decisions, flips the deepest discrepancy whose 1-branch is still
unexplored (the recorded junction), and finishes the address with the
first-encounter rule; when no such junction remains it reports
exhausted (`none`). -/
def searchNext : List (List Bool) → List Bool → Option (List Bool)
  | _, [] => none
  | S, false :: rest =>
    match searchNext (branchTails false S) rest with
    | some r => some (false :: r)
    | none =>
      if (branchTails true S).isEmpty then none
      else some (true :: leastSuffix rest.length (branchTails true S))
  | S, true :: rest =>
    match searchNext (branchTails true S) rest with
    | some r => some (true :: r)
    | none => none

/-- Modelled from the spec: one call of the bus-search iterator over the
participating devices `S` (all of ROM length `n`; for the alarm-search
variant, `S` is the alarmed subset).  The cursor holds the last returned
address, or `none` when fresh; a fresh search over an empty bus reports
exhausted immediately; after reporting exhausted the cursor is reset so the
next call restarts the pass. -/
def busSearchNext (n : Nat) (S : List (List Bool)) :
    Option (List Bool) → Option (List Bool)
  | none => if S.isEmpty then none else some (leastSuffix n S)
  | some a => searchNext S a

/-- Outputs of `fuel` consecutive calls of the bus-search iterator starting
from cursor `cur`; after each call the cursor becomes the reported value
(reset to fresh when the call reported exhausted). -/
def runSearch (n : Nat) (S : List (List Bool)) :
    Nat → Option (List Bool) → List (Option (List Bool))
  | 0, _ => []
  | fuel + 1, cur =>
    busSearchNext n S cur :: runSearch n S fuel (busSearchNext n S cur)



/-! ## Helper lemmas -/

/-- A successful scratchpad read hands back exactly the received bytes. -/
theorem readScratchPad_some_eq {sp s : List Nat}
    (h : readScratchPad sp = some s) : s = sp := by
  unfold readScratchPad at h
  by_cases hc : (crc8 (sp.take 8) == sp.getD SCRATCHPAD_CRC 0) = true
  · rw [if_pos hc] at h
    exact (Option.some.inj h).symm
  · rw [if_neg hc] at h
    cases h

/-- ANDing a 16-bit value with the mask that keeps bits `k..15` clears the
`k` low bits, i.e. subtracts the residue mod `2^k`. -/
theorem and_high_mask (p k : Nat) (hp : p < 65536) (hk : k ≤ 16) :
    p &&& (0xFFFF - (2 ^ k - 1)) = p - p % 2 ^ k := by
  have h2 : (2 : Nat) ^ k * 2 ^ (16 - k) = 65536 := by
    rw [← pow_add]
    have : k + (16 - k) = 16 := by omega
    rw [this]
    norm_num
  have h3 : 1 ≤ (2 : Nat) ^ k := Nat.one_le_two_pow
  have h4 : (2 : Nat) ^ k ≤ 65536 := by
    calc (2 : Nat) ^ k ≤ 2 ^ 16 := Nat.pow_le_pow_right (by decide) hk
    _ = 65536 := by norm_num
  have hm : (0xFFFF : Nat) - (2 ^ k - 1) = 2 ^ k * (2 ^ (16 - k) - 1) := by
    rw [Nat.mul_sub_one, h2]
    omega
  have hq : p - p % 2 ^ k = 2 ^ k * (p / 2 ^ k) := by
    exact Nat.sub_eq_of_eq_add (Nat.div_add_mod p (2 ^ k)).symm
  rw [hm, hq]
  apply Nat.eq_of_testBit_eq
  intro i
  rw [Nat.testBit_and]
  rw [show (2 : Nat) ^ k * (2 ^ (16 - k) - 1) = (2 ^ (16 - k) - 1) <<< k from by
    rw [Nat.shiftLeft_eq, Nat.mul_comm]]
  rw [show (2 : Nat) ^ k * (p / 2 ^ k) = (p >>> k) <<< k from by
    rw [Nat.shiftLeft_eq, Nat.shiftRight_eq_div_pow, Nat.mul_comm]]
  rw [Nat.testBit_shiftLeft, Nat.testBit_shiftLeft, Nat.testBit_shiftRight]
  by_cases hik : k ≤ i
  · have hd : decide (i ≥ k) = true := by simp [hik]
    rw [hd]
    have hadd : k + (i - k) = i := by omega
    rw [hadd, Nat.testBit_two_pow_sub_one]
    by_cases hi16 : i < 16
    · have : decide (i - k < 16 - k) = true := by simp; omega
      rw [this]
      simp [Bool.and_comm]
    · have hpi : p.testBit i = false := by
        apply Nat.testBit_lt_two_pow
        calc p < 65536 := hp
        _ = 2 ^ 16 := by norm_num
        _ ≤ 2 ^ i := Nat.pow_le_pow_right (by decide) (by omega)
      simp [hpi]
  · have hd : decide (i ≥ k) = false := by simp [hik]
    rw [hd]
    simp

/-- Clearing the `k` low bits of a 16-bit pattern and then reading it as a
signed 16-bit value is the same as reading it first and then subtracting
the (nonnegative) residue mod `2^k`. -/
theorem toInt16_and_mask (p k : Nat) (hp : p < 65536) (hk : k ≤ 3) :
    toInt16 (p &&& (0xFFFF - (2 ^ k - 1))) = toInt16 p - toInt16 p % 2 ^ k := by
  rw [and_high_mask p k hp (by omega)]
  unfold toInt16
  interval_cases k <;> (split_ifs <;> omega)

/-- The 16-bit raw pattern assembled from two bytes fits in 16 bits. -/
theorem raw16_lt (lsb msb : Nat) (hl : lsb < 256) (hm : msb < 256) :
    (msb <<< 8 ||| lsb) < 65536 := by
  have h1 : msb <<< 8 < 2 ^ 16 := by
    rw [Nat.shiftLeft_eq]
    norm_num
    omega
  have h2 : lsb < 2 ^ 16 := by norm_num; omega
  calc (msb <<< 8 ||| lsb) < 2 ^ 16 := Nat.or_lt_two_pow h1 h2
  _ = 65536 := by norm_num

/-- Unfolding lemma for `lexLt` on two nonempty lists. -/
theorem lexLt_cons (x y : Bool) (xs ys : List Bool) :
    lexLt (x :: xs) (y :: ys) = ((!x && y) || (x == y && lexLt xs ys)) := rfl

/-- `lexLt` is irreflexive. -/
theorem lexLt_irrefl : ∀ a : List Bool, lexLt a a = false
  | [] => rfl
  | x :: xs => by
    rw [lexLt_cons]
    cases x <;> simp [lexLt_irrefl xs]

/-- `lexLt` is transitive. -/
theorem lexLt_trans : ∀ a b c : List Bool,
    lexLt a b = true → lexLt b c = true → lexLt a c = true := by
  intro a
  induction a with
  | nil =>
    intro b c h1 h2
    cases b with
    | nil => simp [lexLt] at h1
    | cons y ys =>
      cases c with
      | nil => simp [lexLt] at h2
      | cons z zs => simp [lexLt]
  | cons x xs ih =>
    intro b c h1 h2
    cases b with
    | nil => simp [lexLt] at h1
    | cons y ys =>
      cases c with
      | nil => simp [lexLt] at h2
      | cons z zs =>
        rw [lexLt_cons] at h1 h2 ⊢
        cases x <;> cases y <;> cases z <;> simp_all <;>
          exact ih ys zs (by assumption) (by assumption)

/-- `lexLt` is total on lists of equal length. -/
theorem lexLt_total : ∀ (a b : List Bool), a.length = b.length → a ≠ b →
    lexLt a b = true ∨ lexLt b a = true := by
  intro a
  induction a with
  | nil =>
    intro b hlen hne
    cases b with
    | nil => exact absurd rfl hne
    | cons y ys => simp at hlen
  | cons x xs ih =>
    intro b hlen hne
    cases b with
    | nil => simp at hlen
    | cons y ys =>
      by_cases hxy : x = y
      · subst hxy
        have hne2 : xs ≠ ys := by
          intro h
          exact hne (by rw [h])
        have hlen2 : xs.length = ys.length := by simpa using hlen
        rcases ih ys hlen2 hne2 with h | h
        · left
          rw [lexLt_cons]
          cases x <;> simp [h]
        · right
          rw [lexLt_cons]
          cases x <;> simp [h]
      · cases x <;> cases y <;> simp_all [lexLt_cons]

/-- Tails of the `b` branch are exactly the members of `S` with head `b`,
when all members are nonempty. -/
theorem mem_branchTails {n : Nat} {S : List (List Bool)} {b : Bool} {x : List Bool}
    (hlen : ∀ d ∈ S, d.length = n + 1) : x ∈ branchTails b S ↔ b :: x ∈ S := by
  unfold branchTails
  simp only [List.mem_map, List.mem_filter]
  constructor
  · rintro ⟨d, ⟨hdS, hdb⟩, rfl⟩
    cases d with
    | nil =>
      have := hlen [] hdS
      simp at this
    | cons a t =>
      have ha : a = b := by simpa [List.headI] using hdb
      subst ha
      simpa using hdS
  · intro hx
    exact ⟨b :: x, ⟨hx, by simp [List.headI]⟩, by simp⟩

/-- Branch tails shorten every member by one bit. -/
theorem branchTails_len {n : Nat} {S : List (List Bool)} (b : Bool)
    (hlen : ∀ d ∈ S, d.length = n + 1) : ∀ t ∈ branchTails b S, t.length = n := by
  intro t ht
  rw [mem_branchTails hlen] at ht
  have := hlen _ ht
  simpa using this

/-- Every member of a list of nonempty bit lists splits into a head bit and
a tail living in the corresponding branch. -/
theorem mem_head_tail {n : Nat} {S : List (List Bool)}
    (hlen : ∀ d ∈ S, d.length = n + 1) {d : List Bool} (hd : d ∈ S) :
    ∃ b t, d = b :: t ∧ t ∈ branchTails b S := by
  cases d with
  | nil =>
    have := hlen [] hd
    simp at this
  | cons b t => exact ⟨b, t, rfl, (mem_branchTails hlen).mpr hd⟩

/-- The first-encounter rule returns an address that is on the bus. -/
theorem leastSuffix_mem : ∀ (n : Nat) (S : List (List Bool)),
    (∀ d ∈ S, d.length = n) → S ≠ [] → leastSuffix n S ∈ S := by
  intro n
  induction n with
  | zero =>
    intro S hlen hne
    obtain ⟨d, hd⟩ := List.exists_mem_of_ne_nil S hne
    have hd0 : d = [] := List.eq_nil_of_length_eq_zero (hlen d hd)
    subst hd0
    simpa [leastSuffix] using hd
  | succ n ih =>
    intro S hlen hne
    by_cases h0 : (branchTails false S).isEmpty = true
    · rw [leastSuffix, if_pos h0]
      apply (mem_branchTails hlen).mp
      apply ih _ (branchTails_len true hlen)
      obtain ⟨d, hd⟩ := List.exists_mem_of_ne_nil S hne
      obtain ⟨b, t, rfl, ht⟩ := mem_head_tail hlen hd
      cases b with
      | false =>
        rw [List.isEmpty_iff] at h0
        rw [h0] at ht
        simp at ht
      | true =>
        intro hcon
        rw [hcon] at ht
        simp at ht
    · rw [leastSuffix, if_neg h0]
      apply (mem_branchTails hlen).mp
      apply ih _ (branchTails_len false hlen)
      intro hcon
      exact h0 (by simp [hcon])

/-- The first-encounter rule returns the search-order-least address. -/
theorem leastSuffix_min : ∀ (n : Nat) (S : List (List Bool)),
    (∀ d ∈ S, d.length = n) → ∀ d ∈ S, lexLt d (leastSuffix n S) = false := by
  intro n
  induction n with
  | zero =>
    intro S hlen d hd
    have hd0 : d = [] := List.eq_nil_of_length_eq_zero (hlen d hd)
    subst hd0
    simp [leastSuffix, lexLt]
  | succ n ih =>
    intro S hlen d hd
    obtain ⟨b, t, rfl, ht⟩ := mem_head_tail hlen hd
    by_cases h0 : (branchTails false S).isEmpty = true
    · rw [leastSuffix, if_pos h0, lexLt_cons]
      cases b with
      | false =>
        rw [List.isEmpty_iff] at h0
        rw [h0] at ht
        simp at ht
      | true =>
        have hm := ih (branchTails true S) (branchTails_len true hlen) t ht
        simp [hm]
    · rw [leastSuffix, if_neg h0, lexLt_cons]
      cases b with
      | true => simp
      | false =>
        have hm := ih (branchTails false S) (branchTails_len false hlen) t ht
        simp [hm]

/-- Characterisation of one cursor step: `searchNext S a` reports exhausted
exactly when no device follows `a` in search order, and otherwise returns
the search-order-least device strictly after `a`. -/
theorem searchNext_spec : ∀ (a : List Bool) (S : List (List Bool)),
    (∀ d ∈ S, d.length = a.length) →
    ((searchNext S a = none → ∀ d ∈ S, lexLt a d = false)
     ∧ (∀ b, searchNext S a = some b →
         b ∈ S ∧ lexLt a b = true ∧ ∀ d ∈ S, lexLt a d = true → lexLt d b = false)) := by
  intro a
  induction a with
  | nil =>
    intro S hlen
    constructor
    · intro _ d hd
      have hd0 : d = [] := List.eq_nil_of_length_eq_zero (hlen d hd)
      subst hd0
      rfl
    · intro b hb
      simp [searchNext] at hb
  | cons x rest ih =>
    intro S hlen
    cases x with
    | false =>
      have ihf := ih (branchTails false S) (branchTails_len false hlen)
      rcases hsub : searchNext (branchTails false S) rest with _ | r
      · by_cases h1 : (branchTails true S).isEmpty = true
        · constructor
          · intro _ d hd
            obtain ⟨b, t, rfl, ht⟩ := mem_head_tail hlen hd
            cases b with
            | true =>
              rw [List.isEmpty_iff] at h1
              rw [h1] at ht
              simp at ht
            | false =>
              rw [lexLt_cons]
              have hm := ihf.1 hsub t ht
              simp [hm]
          · intro b hb
            simp only [searchNext, hsub] at hb
            rw [if_pos h1] at hb
            cases hb
        · constructor
          · intro hres
            simp only [searchNext, hsub] at hres
            rw [if_neg h1] at hres
            cases hres
          · intro b hb
            simp only [searchNext, hsub] at hb
            rw [if_neg h1] at hb
            have hb2 := Option.some.inj hb
            subst hb2
            have hSne : branchTails true S ≠ [] := by
              intro hcon
              exact h1 (by simp [hcon])
            refine ⟨?_, ?_, ?_⟩
            · exact (mem_branchTails hlen).mp
                (leastSuffix_mem rest.length (branchTails true S)
                  (branchTails_len true hlen) hSne)
            · rw [lexLt_cons]
              simp
            · intro d hd hlt
              obtain ⟨bd, t, rfl, ht⟩ := mem_head_tail hlen hd
              cases bd with
              | false =>
                rw [lexLt_cons] at hlt
                simp at hlt
                have hm := ihf.1 hsub t ht
                rw [hm] at hlt
                cases hlt
              | true =>
                rw [lexLt_cons]
                have hm := leastSuffix_min rest.length (branchTails true S)
                  (branchTails_len true hlen) t ht
                simp [hm]
      · constructor
        · intro hres
          simp only [searchNext, hsub] at hres
          cases hres
        · intro b hb
          simp only [searchNext, hsub] at hb
          have hb2 := Option.some.inj hb
          subst hb2
          obtain ⟨hrmem, hrlt, hrmin⟩ := ihf.2 r hsub
          refine ⟨(mem_branchTails hlen).mp hrmem, ?_, ?_⟩
          · rw [lexLt_cons]
            simp [hrlt]
          · intro d hd hlt
            obtain ⟨bd, t, rfl, ht⟩ := mem_head_tail hlen hd
            cases bd with
            | true =>
              rw [lexLt_cons]
              simp
            | false =>
              rw [lexLt_cons] at hlt ⊢
              simp at hlt ⊢
              exact hrmin t ht hlt
    | true =>
      have iht := ih (branchTails true S) (branchTails_len true hlen)
      rcases hsub : searchNext (branchTails true S) rest with _ | r
      · constructor
        · intro _ d hd
          obtain ⟨bd, t, rfl, ht⟩ := mem_head_tail hlen hd
          cases bd with
          | false =>
            rw [lexLt_cons]
            simp
          | true =>
            rw [lexLt_cons]
            have hm := iht.1 hsub t ht
            simp [hm]
        · intro b hb
          simp only [searchNext, hsub] at hb
          cases hb
      · constructor
        · intro hres
          simp only [searchNext, hsub] at hres
          cases hres
        · intro b hb
          simp only [searchNext, hsub] at hb
          have hb2 := Option.some.inj hb
          subst hb2
          obtain ⟨hrmem, hrlt, hrmin⟩ := iht.2 r hsub
          refine ⟨(mem_branchTails hlen).mp hrmem, ?_, ?_⟩
          · rw [lexLt_cons]
            simp [hrlt]
          · intro d hd hlt
            obtain ⟨bd, t, rfl, ht⟩ := mem_head_tail hlen hd
            cases bd with
            | false =>
              rw [lexLt_cons] at hlt
              simp at hlt
            | true =>
              rw [lexLt_cons] at hlt ⊢
              simp at hlt ⊢
              exact hrmin t ht hlt

/-- Splitting a filtered list at its distinguished least element: if `p`
holds on `S` exactly at `b` and wherever `q` holds, while `q` misses `b`,
then filtering by `p` is a permutation of `b` consed onto filtering by
`q`. -/
theorem filter_perm_cons_filter {α : Type} [DecidableEq α] (S : List α)
    (hnd : S.Nodup) (b : α) (hb : b ∈ S) (p q : α → Bool) (hpb : p b = true)
    (hqb : q b = false) (hpq : ∀ x ∈ S, x ≠ b → p x = q x) :
    (S.filter p).Perm (b :: S.filter q) := by
  rw [List.perm_iff_count]
  intro x
  by_cases hxb : x = b
  · subst hxb
    rw [List.count_cons_self]
    have h1 : List.count x (S.filter p) = List.count x S := List.count_filter hpb
    have h2 : List.count x (S.filter q) = 0 := by
      rw [List.count_eq_zero]
      intro hmem
      rw [List.mem_filter] at hmem
      rw [hqb] at hmem
      cases hmem.2
    rw [h1, h2, List.count_eq_one_of_mem hnd hb]
  · rw [List.count_cons_of_ne hxb]
    by_cases hxS : x ∈ S
    · have hpq2 := hpq x hxS hxb
      by_cases hq : q x = true
      · rw [List.count_filter hq, List.count_filter (hpq2.trans hq)]
      · have hq2 : q x = false := by
          cases hqx : q x
          · rfl
          · exact absurd hqx hq
        have hp2 : p x = false := hpq2.trans hq2
        have hz1 : List.count x (S.filter p) = 0 := by
          rw [List.count_eq_zero]
          intro hpm
          rw [List.mem_filter] at hpm
          rw [hp2] at hpm
          cases hpm.2
        have hz2 : List.count x (S.filter q) = 0 := by
          rw [List.count_eq_zero]
          intro hmem
          rw [List.mem_filter] at hmem
          rw [hq2] at hmem
          cases hmem.2
        rw [hz1, hz2]
    · have hz1 : List.count x (S.filter p) = 0 := by
        rw [List.count_eq_zero]
        intro hmem
        exact hxS (List.mem_filter.mp hmem).1
      have hz2 : List.count x (S.filter q) = 0 := by
        rw [List.count_eq_zero]
        intro hmem
        exact hxS (List.mem_filter.mp hmem).1
      rw [hz1, hz2]

/-- Running the iterator from a cursor on device `a`: the next `k` calls
(`k` = number of devices after `a` in search order) output exactly those
devices, the call after them reports exhausted, and the call after that
behaves like a fresh search. -/
theorem pass_from : ∀ (k n : Nat) (S : List (List Bool)),
    (∀ d ∈ S, d.length = n) → S.Nodup → ∀ a ∈ S,
    (S.filter (fun d => lexLt a d)).length = k →
    (((runSearch n S (k + 2) (some a)).take k).filterMap id).Perm
        (S.filter (fun d => lexLt a d))
    ∧ (runSearch n S (k + 2) (some a)).get? k = some none
    ∧ (runSearch n S (k + 2) (some a)).get? (k + 1)
        = some (busSearchNext n S none) := by
  intro k
  induction k with
  | zero =>
    intro n S hlen hnd a ha hk
    have hfilter : S.filter (fun d => lexLt a d) = [] :=
      List.eq_nil_of_length_eq_zero hk
    have halen : ∀ d ∈ S, d.length = a.length := by
      intro d hd
      rw [hlen d hd, hlen a ha]
    have hnone : searchNext S a = none := by
      rcases hs : searchNext S a with _ | b
      · rfl
      · exfalso
        obtain ⟨hbmem, hblt, _⟩ := (searchNext_spec a S halen).2 b hs
        have hbf : b ∈ S.filter (fun d => lexLt a d) := by
          rw [List.mem_filter]
          exact ⟨hbmem, hblt⟩
        rw [hfilter] at hbf
        simp at hbf
    have hb1 : busSearchNext n S (some a) = none := by
      simp [busSearchNext, hnone]
    refine ⟨?_, ?_, ?_⟩
    · simp [hfilter]
    · simp [runSearch, hb1]
    · simp [runSearch, hb1]
  | succ k ih =>
    intro n S hlen hnd a ha hk
    have halen : ∀ d ∈ S, d.length = a.length := by
      intro d hd
      rw [hlen d hd, hlen a ha]
    rcases hs : searchNext S a with _ | b
    · exfalso
      have h0 := (searchNext_spec a S halen).1 hs
      have hfe : S.filter (fun d => lexLt a d) = [] := by
        rw [List.eq_nil_iff_forall_not_mem]
        intro d hd
        rw [List.mem_filter] at hd
        have := h0 d hd.1
        rw [this] at hd
        cases hd.2
      rw [hfe] at hk
      simp at hk
    · obtain ⟨hbmem, hblt, hbmin⟩ := (searchNext_spec a S halen).2 b hs
      have hperm : (S.filter (fun d => lexLt a d)).Perm
          (b :: S.filter (fun d => lexLt b d)) := by
        apply filter_perm_cons_filter S hnd b hbmem _ _ hblt (lexLt_irrefl b)
        intro x hx hxb
        cases hax : lexLt a x with
        | false =>
          cases hbx : lexLt b x with
          | false => rfl
          | true =>
            have := lexLt_trans a b x hblt hbx
            rw [hax] at this
            cases this
        | true =>
          have hxb2 := hbmin x hx hax
          have hlenxb : x.length = b.length := by
            rw [hlen x hx, hlen b hbmem]
          rcases lexLt_total x b hlenxb hxb with h | h
          · rw [h] at hxb2
            cases hxb2
          · rw [h]
      have hlenb : (S.filter (fun d => lexLt b d)).length = k := by
        have hle := hperm.length_eq
        rw [hk] at hle
        simp at hle
        omega
      obtain ⟨ihp, ihg1, ihg2⟩ := ih n S hlen hnd b hbmem hlenb
      have hb1 : busSearchNext n S (some a) = some b := by
        simp [busSearchNext, hs]
      have hrun : runSearch n S (k + 1 + 2) (some a)
          = some b :: runSearch n S (k + 2) (some b) := by
        show runSearch n S ((k + 2) + 1) (some a) = _
        rw [runSearch, hb1]
      refine ⟨?_, ?_, ?_⟩
      · rw [hrun, List.take_succ_cons, List.filterMap_cons]
        simp only [id]
        exact (List.Perm.cons b ihp).trans hperm.symm
      · rw [hrun, List.get?_cons_succ]
        exact ihg1
      · rw [hrun]
        show (some b :: runSearch n S (k + 2) (some b)).get? ((k + 1) + 1) = _
        rw [List.get?_cons_succ]
        exact ihg2

/-! ## Claim theorems -/

/-- C5: for every 8-byte address, `validAddress` returns true if and only
if the CRC-8 over bytes 0..6 (standard 1-wire polynomial) equals byte 7. -/
theorem validAddress_iff_crc8 (b0 b1 b2 b3 b4 b5 b6 b7 : Nat) :
    validAddress [b0, b1, b2, b3, b4, b5, b6, b7] = true
      ↔ crc8 [b0, b1, b2, b3, b4, b5, b6] = b7 := by
  simp [validAddress]

/-- C2: a DS18B20-family scratchpad at the 12-bit resolution mask with raw
temperature bytes LSB = 0x91, MSB = 0x01 decodes to exactly 25.0625 °C
(both through the decoder alone and through the full `getTempC` path with
a valid scratchpad CRC). -/
theorem calculateTemperature_ds18b20_12bit_example :
    calculateTemperature DS18B20MODEL [0x91, 0x01, 0, 0, TEMP_12_BIT, 0, 0, 0, 138]
        = 25.0625
    ∧ getTempC [0x28, 0, 0, 0, 0, 0, 0, 30] [0x91, 0x01, 0, 0, 0x7F, 0, 0, 0, 138]
        = 25.0625 := by
  have e1 : ([0x91, 0x01, 0, 0, 0x7F, 0, 0, 0, 138] : List Nat).getD TEMP_LSB 0 = 0x91 := by
    decide
  have e2 : ([0x91, 0x01, 0, 0, 0x7F, 0, 0, 0, 138] : List Nat).getD TEMP_MSB 0 = 0x01 := by
    decide
  have e3 : ([0x91, 0x01, 0, 0, 0x7F, 0, 0, 0, 138] : List Nat).getD CONFIGURATION 0 = 0x7F := by
    decide
  have hmain : calculateTemperature DS18B20MODEL [0x91, 0x01, 0, 0, 0x7F, 0, 0, 0, 138]
      = 25.0625 := by
    simp only [calculateTemperature, e1, e2, e3]
    rw [if_neg (by decide : ¬(DS18B20MODEL = DS18S20MODEL))]
    rw [(by decide :
      ((0x01 <<< 8 ||| 0x91) &&& (0xFFFF - (2 ^ resolutionMaskBits 0x7F - 1))) = 401)]
    norm_num [toInt16]
  refine ⟨hmain, ?_⟩
  have hr : readScratchPad [0x91, 0x01, 0, 0, 0x7F, 0, 0, 0, 138]
      = some [0x91, 0x01, 0, 0, 0x7F, 0, 0, 0, 138] := by decide
  simp only [getTempC, hr]
  rw [(by decide : ([0x28, 0, 0, 0, 0, 0, 0, 30] : List Nat).getD 0 0 = DS18B20MODEL)]
  exact hmain

/-- C1 (amended): `getTempC` returns the DEVICE_DISCONNECTED sentinel
exactly when the scratchpad read fails its CRC-8 check or the CRC-valid
scratchpad itself decodes to −127 (a raw reading outside the device
operating range); in particular a CRC failure always yields the sentinel,
and a CRC-valid scratchpad yields its decoded temperature. -/
theorem getTempC_disconnected_iff (addr sp : List Nat) :
    getTempC addr sp = DEVICE_DISCONNECTED
      ↔ (readScratchPad sp = none
          ∨ calculateTemperature (addr.getD 0 0) sp = DEVICE_DISCONNECTED) := by
  rcases h : readScratchPad sp with _ | s
  · simp [getTempC, h]
  · have hs := readScratchPad_some_eq h
    subst hs
    simp [getTempC, h]

/-- C1 (counterexample to the claim as stated): a scratchpad whose CRC-8
check passes (raw bytes 0x10/0xF8 at the 12-bit mask, CRC byte 211) still
makes `getTempC` return −127, so the sentinel is not produced only on
checksum failure. -/
theorem getTempC_sentinel_despite_valid_crc :
    readScratchPad [0x10, 0xF8, 0, 0, 0x7F, 0, 0, 0, 211]
        = some [0x10, 0xF8, 0, 0, 0x7F, 0, 0, 0, 211]
    ∧ getTempC [0x28, 0, 0, 0, 0, 0, 0, 30] [0x10, 0xF8, 0, 0, 0x7F, 0, 0, 0, 211]
        = DEVICE_DISCONNECTED := by
  have hr : readScratchPad [0x10, 0xF8, 0, 0, 0x7F, 0, 0, 0, 211]
      = some [0x10, 0xF8, 0, 0, 0x7F, 0, 0, 0, 211] := by decide
  refine ⟨hr, ?_⟩
  have e1 : ([0x10, 0xF8, 0, 0, 0x7F, 0, 0, 0, 211] : List Nat).getD TEMP_LSB 0 = 0x10 := by
    decide
  have e2 : ([0x10, 0xF8, 0, 0, 0x7F, 0, 0, 0, 211] : List Nat).getD TEMP_MSB 0 = 0xF8 := by
    decide
  have e3 : ([0x10, 0xF8, 0, 0, 0x7F, 0, 0, 0, 211] : List Nat).getD CONFIGURATION 0 = 0x7F := by
    decide
  simp only [getTempC, hr]
  rw [(by decide : ([0x28, 0, 0, 0, 0, 0, 0, 30] : List Nat).getD 0 0 = DS18B20MODEL)]
  simp only [calculateTemperature, e1, e2, e3]
  rw [if_neg (by decide : ¬(DS18B20MODEL = DS18S20MODEL))]
  rw [(by decide :
    ((0xF8 <<< 8 ||| 0x10) &&& (0xFFFF - (2 ^ resolutionMaskBits 0x7F - 1))) = 63504)]
  norm_num [toInt16, DEVICE_DISCONNECTED]

/-- C6: `toFahrenheit` is `c*1.8+32`, `toCelsius` is `(f-32)/1.8`, both
pure total functions on `ℚ`, and the round trip
`toCelsius (toFahrenheit x)` is the identity (exactly, hence within any
floating-point tolerance). -/
theorem toFahrenheit_toCelsius_roundtrip (x : ℚ) :
    toFahrenheit x = x * 1.8 + 32 ∧ toCelsius x = (x - 32) / 1.8
      ∧ toCelsius (toFahrenheit x) = x := by
  refine ⟨rfl, rfl, ?_⟩
  unfold toCelsius toFahrenheit
  norm_num

/-- C7: `getTempF` returns DEVICE_DISCONNECTED exactly when the scratchpad
cannot be read successfully, and otherwise the decoded temperature
(`getTempC`) converted to degrees Fahrenheit. -/
theorem getTempF_disconnected_or_fahrenheit (addr sp : List Nat) :
    getTempF addr sp
      = if readScratchPad sp = none then DEVICE_DISCONNECTED
        else toFahrenheit (getTempC addr sp) := by
  rcases h : readScratchPad sp with _ | s
  · simp [getTempF, h]
  · have hs := readScratchPad_some_eq h
    subst hs
    simp [getTempF, getTempC, h]

/-- C8: whenever the parasite-power flag is set, the conversion wait never
uses active bus-bit polling, whatever the checkForConversion policy flag
says: it falls back to the blocking delay derived from the configured
resolution. -/
theorem parasite_forces_blocking_delay
    (checkForConversion : Bool) (bitResolution : Nat) :
    blockTillConversionComplete true checkForConversion bitResolution
        = WaitMode.blockingDelay (millisToWaitForConversion bitResolution)
    ∧ blockTillConversionComplete true checkForConversion bitResolution
        ≠ WaitMode.activePoll := by
  unfold blockTillConversionComplete
  simp

/-- C10: for every resolution n in 9..12 the configuration mask equals
`((n-9)<<5) | 0x1F`, the resolution is recovered from bits 5-6 of the
mask, and the four masks are strictly increasing (hence pairwise
distinct). -/
theorem resolution_mask_layout (n : Nat) (h9 : 9 ≤ n) (h12 : n ≤ 12) :
    resolutionMask n = ((n - 9) <<< 5) ||| 0x1F
    ∧ resolutionOfConfig (resolutionMask n) = n
    ∧ TEMP_9_BIT < TEMP_10_BIT ∧ TEMP_10_BIT < TEMP_11_BIT
    ∧ TEMP_11_BIT < TEMP_12_BIT := by
  interval_cases n <;> decide

/-- C3: for every non-legacy family (DS18B20, DS1822, MAX31850) and every
scratchpad, the decoder forms the signed 16-bit raw value (MSB<<8 | LSB),
clears the 3 lowest raw bits at the 9-bit mask, 2 at 10-bit, 1 at 11-bit
and none at 12-bit (subtracting the residue mod 2^k), and scales the
masked value by 1/16. -/
theorem calculateTemperature_nonlegacy_mask_scale
    (family lsb msb b2 b3 cfg b5 b6 b7 b8 : Nat)
    (hf : family = DS18B20MODEL ∨ family = DS1822MODEL ∨ family = MAX31850MODEL)
    (hl : lsb < 256) (hm : msb < 256)
    (hcfg : cfg = TEMP_9_BIT ∨ cfg = TEMP_10_BIT ∨ cfg = TEMP_11_BIT ∨ cfg = TEMP_12_BIT) :
    calculateTemperature family [lsb, msb, b2, b3, cfg, b5, b6, b7, b8]
        = ((toInt16 (msb <<< 8 ||| lsb)
            - toInt16 (msb <<< 8 ||| lsb) % 2 ^ resolutionMaskBits cfg : ℤ) : ℚ) / 16
    ∧ resolutionMaskBits TEMP_9_BIT = 3 ∧ resolutionMaskBits TEMP_10_BIT = 2
    ∧ resolutionMaskBits TEMP_11_BIT = 1 ∧ resolutionMaskBits TEMP_12_BIT = 0 := by
  refine ⟨?_, by decide, by decide, by decide, by decide⟩
  have hfne : family ≠ DS18S20MODEL := by
    rcases hf with rfl | rfl | rfl <;> decide
  have e1 : ([lsb, msb, b2, b3, cfg, b5, b6, b7, b8] : List Nat).getD TEMP_LSB 0 = lsb := rfl
  have e2 : ([lsb, msb, b2, b3, cfg, b5, b6, b7, b8] : List Nat).getD TEMP_MSB 0 = msb := rfl
  have e3 : ([lsb, msb, b2, b3, cfg, b5, b6, b7, b8] : List Nat).getD CONFIGURATION 0 = cfg := rfl
  have hk : resolutionMaskBits cfg ≤ 3 := by
    rcases hcfg with rfl | rfl | rfl | rfl <;> decide
  simp only [calculateTemperature, e1, e2, e3]
  rw [if_neg hfne]
  rw [toInt16_and_mask _ _ (raw16_lt lsb msb hl hm) hk]

/-- C3 witness: the masking/scaling equation instantiated for a DS18B20 at
the 9-bit mask with raw bytes 0x91/0x01. -/
theorem calculateTemperature_nonlegacy_mask_scale_witness :
    calculateTemperature DS18B20MODEL [0x91, 0x01, 0, 0, TEMP_9_BIT, 0, 0, 0, 0]
        = ((toInt16 (0x01 <<< 8 ||| 0x91)
            - toInt16 (0x01 <<< 8 ||| 0x91) % 2 ^ resolutionMaskBits TEMP_9_BIT : ℤ) : ℚ) / 16
    ∧ resolutionMaskBits TEMP_9_BIT = 3 ∧ resolutionMaskBits TEMP_10_BIT = 2
    ∧ resolutionMaskBits TEMP_11_BIT = 1 ∧ resolutionMaskBits TEMP_12_BIT = 0 :=
  calculateTemperature_nonlegacy_mask_scale DS18B20MODEL 0x91 0x01 0 0 TEMP_9_BIT 0 0 0 0
    (by decide) (by decide) (by decide) (by decide)

/-- C4: for the legacy count-based DS18S20 family and every scratchpad, the
decoder computes raw = (MSB<<8 | LSB) with the low bit cleared and
base = raw/2; when COUNT_PER_C is nonzero it returns
`base - 0.25 + (countPerC - countRemain)/countPerC`, and when COUNT_PER_C
is zero it returns the uncorrected half-degree value `base`. -/
theorem calculateTemperature_legacy_count_formula
    (lsb msb b2 b3 b4 b5 crem cpc b8 : Nat) (hl : lsb < 256) (hm : msb < 256) :
    calculateTemperature DS18S20MODEL [lsb, msb, b2, b3, b4, b5, crem, cpc, b8]
        = if cpc ≠ 0 then
            ((toInt16 (msb <<< 8 ||| lsb) - toInt16 (msb <<< 8 ||| lsb) % 2 : ℤ) : ℚ) / 2
              - 1/4 + (((cpc : ℚ) - (crem : ℚ)) / (cpc : ℚ))
          else ((toInt16 (msb <<< 8 ||| lsb) - toInt16 (msb <<< 8 ||| lsb) % 2 : ℤ) : ℚ) / 2 := by
  have e1 : ([lsb, msb, b2, b3, b4, b5, crem, cpc, b8] : List Nat).getD TEMP_LSB 0 = lsb := rfl
  have e2 : ([lsb, msb, b2, b3, b4, b5, crem, cpc, b8] : List Nat).getD TEMP_MSB 0 = msb := rfl
  have e6 : ([lsb, msb, b2, b3, b4, b5, crem, cpc, b8] : List Nat).getD COUNT_REMAIN 0 = crem := rfl
  have e7 : ([lsb, msb, b2, b3, b4, b5, crem, cpc, b8] : List Nat).getD COUNT_PER_C 0 = cpc := rfl
  simp only [calculateTemperature, e1, e2, e6, e7]
  rw [if_pos trivial]
  rw [(by decide : (0xFFFE : Nat) = 0xFFFF - (2 ^ 1 - 1))]
  rw [toInt16_and_mask _ 1 (raw16_lt lsb msb hl hm) (by decide)]
  norm_num

/-- C4 witness: the legacy formula instantiated at raw bytes 0x32/0x00 with
countRemain = 12 and countPerC = 16. -/
theorem calculateTemperature_legacy_count_formula_witness :
    calculateTemperature DS18S20MODEL [0x32, 0x00, 0, 0, 0, 0, 12, 16, 0]
        = if (16 : Nat) ≠ 0 then
            ((toInt16 (0x00 <<< 8 ||| 0x32) - toInt16 (0x00 <<< 8 ||| 0x32) % 2 : ℤ) : ℚ) / 2
              - 1/4 + ((((16 : Nat) : ℚ) - (((12 : Nat)) : ℚ)) / (((16 : Nat)) : ℚ))
          else ((toInt16 (0x00 <<< 8 ||| 0x32) - toInt16 (0x00 <<< 8 ||| 0x32) % 2 : ℤ) : ℚ) / 2 :=
  calculateTemperature_legacy_count_formula 0x32 0x00 0 0 0 0 12 16 0 (by decide) (by decide)

/-- C9: a full pass of the bus-search iterator over the participating
devices (the alarm-search variant runs the same cursor over the alarmed
subset) yields each distinct device address exactly once (the first
`|S|` outputs are a permutation of `S`), then reports exhausted, and the
call after exhaustion behaves like a fresh search, restarting the pass
from the beginning. -/
theorem busSearch_full_pass (n : Nat) (S : List (List Bool))
    (hlen : ∀ d ∈ S, d.length = n) (hnd : S.Nodup) (hne : S ≠ []) :
    (((runSearch n S (S.length + 2) none).take S.length).filterMap id).Perm S
    ∧ (runSearch n S (S.length + 2) none).get? S.length = some none
    ∧ (runSearch n S (S.length + 2) none).get? (S.length + 1)
        = some (busSearchNext n S none) := by
  have ha0 : leastSuffix n S ∈ S := leastSuffix_mem n S hlen hne
  have hmin := leastSuffix_min n S hlen
  have hperm0 : S.Perm
      (leastSuffix n S :: S.filter (fun d => lexLt (leastSuffix n S) d)) := by
    have hft : (S.filter (fun _ => true)).Perm
        (leastSuffix n S :: S.filter (fun d => lexLt (leastSuffix n S) d)) := by
      apply filter_perm_cons_filter S hnd _ ha0 _ _ rfl (lexLt_irrefl _)
      intro x hx hxb
      have h1 := hmin x hx
      have hlx : x.length = (leastSuffix n S).length := by
        rw [hlen x hx, hlen _ ha0]
      rcases lexLt_total x _ hlx hxb with h | h
      · rw [h] at h1
        cases h1
      · exact h.symm
    simpa using hft
  cases S with
  | nil => exact absurd rfl hne
  | cons s S2 =>
    have hklen : ((s :: S2).filter
        (fun d => lexLt (leastSuffix n (s :: S2)) d)).length = S2.length := by
      have hle := hperm0.length_eq
      simp only [List.length_cons] at hle
      omega
    have hb0 : busSearchNext n (s :: S2) none = some (leastSuffix n (s :: S2)) := by
      simp [busSearchNext]
    have hrun0 : runSearch n (s :: S2) ((s :: S2).length + 2) none
        = some (leastSuffix n (s :: S2))
          :: runSearch n (s :: S2) (S2.length + 2) (some (leastSuffix n (s :: S2))) := by
      show runSearch n (s :: S2) ((S2.length + 2) + 1) none = _
      rw [runSearch, hb0]
    obtain ⟨hp, hg1, hg2⟩ :=
      pass_from S2.length n (s :: S2) hlen hnd (leastSuffix n (s :: S2)) ha0 hklen
    refine ⟨?_, ?_, ?_⟩
    · rw [hrun0]
      show ((some (leastSuffix n (s :: S2)) :: _).take (S2.length + 1)).filterMap id
        |>.Perm (s :: S2)
      rw [List.take_succ_cons, List.filterMap_cons]
      simp only [id]
      exact (List.Perm.cons (leastSuffix n (s :: S2)) hp).trans hperm0.symm
    · rw [hrun0]
      show (some (leastSuffix n (s :: S2)) :: _).get? (S2.length + 1) = some none
      rw [List.get?_cons_succ]
      exact hg1
    · rw [hrun0]
      show (some (leastSuffix n (s :: S2)) :: _).get? ((S2.length + 1) + 1)
        = some (busSearchNext n (s :: S2) none)
      rw [List.get?_cons_succ]
      exact hg2

/-- C9 witness: the full-pass property instantiated on a two-device bus
with 2-bit ROM codes. -/
theorem busSearch_full_pass_witness :
    (((runSearch 2 [[true, false], [false, true]]
        ([[true, false], [false, true]].length + 2) none).take
          [[true, false], [false, true]].length).filterMap id).Perm
        [[true, false], [false, true]]
    ∧ (runSearch 2 [[true, false], [false, true]]
        ([[true, false], [false, true]].length + 2) none).get?
          [[true, false], [false, true]].length = some none
    ∧ (runSearch 2 [[true, false], [false, true]]
        ([[true, false], [false, true]].length + 2) none).get?
          ([[true, false], [false, true]].length + 1)
        = some (busSearchNext 2 [[true, false], [false, true]] none) :=
  busSearch_full_pass 2 [[true, false], [false, true]]
    (by decide) (by decide) (by decide)

/-- C10 witness: the layout equations instantiated at n = 10. -/
theorem resolution_mask_layout_witness :
    resolutionMask 10 = ((10 - 9) <<< 5) ||| 0x1F
    ∧ resolutionOfConfig (resolutionMask 10) = 10
    ∧ TEMP_9_BIT < TEMP_10_BIT ∧ TEMP_10_BIT < TEMP_11_BIT
    ∧ TEMP_11_BIT < TEMP_12_BIT :=
  resolution_mask_layout 10 (by decide) (by decide)

end DallasTemperature
